import Mathlib

/-!
Verification development for the C++ LAN chat application
(src/server.cpp and src/client.cpp).

The server keeps a global `std::vector<socket_t> clients` protected by
`clients_mutex`.  We embed sockets as integers (`INVALID_SOCket` is -1 on
POSIX), the membership vector as a `List`, and the accept-loop /
handler-cleanup mutations as functions on that list, together with a step
relation describing the states the server can reach.
-/

namespace ChatApp

/-- Socket descriptors (`socket_t` is `int` on POSIX). -/
abbrev Socket := Int

/-- src/server.cpp line 40: `#define INVALID_SOCKET -1`. -/
def INVALID_SOCKET : Socket := -1

/-- src/server.cpp line 48: `const int PORT = 8080`. -/
def PORT : Nat := 8080

/-- src/server.cpp line 49: `const int BUFFER_SIZE = 4096`. -/
def BUFFER_SIZE : Nat := 4096

/-- src/server.cpp line 50: `const int MAX_CLIENTS = 10`. -/
def MAX_CLIENTS : Nat := 10

/-- Characters stripped by `message.find_last_not_of(" \n\r\t")` in
src/server.cpp line 85: space, newline, carriage return, tab. -/
def isTrimChar (c : Char) : Bool :=
  c == ' ' || c == '\n' || c == '\r' || c == '\t'

/-- Right-trim on character lists embedding
`message.erase(message.find_last_not_of(" \n\r\t")+1)`: the maximal
trailing run of trim characters is removed (when every character is a
trim character, `find_last_not_of` yields `npos` and `npos + 1` wraps to
`0`, clearing the string). -/
def rtrimL (l : List Char) : List Char :=
  (l.reverse.dropWhile isTrimChar).reverse

/-- Right-trim on strings, as applied to each received payload. -/
def rtrimS (s : String) : String :=
  String.mk (rtrimL s.data)

/-- The trailing run that `rtrimL` removes. -/
def trailingTrim (l : List Char) : List Char :=
  (l.reverse.takeWhile isTrimChar).reverse

/-- src/server.cpp line 73: the per-session identity string
`"[Client " + std::to_string(client_socket) + "]"`. -/
def client_id (s : Socket) : String :=
  "[Client " ++ toString s ++ "]"

/-- src/server.cpp line 207: the rejection line sent when the server is
at capacity. -/
def serverFullMsg : String := "Server is full. Please try again later.\n"

/-- Observable network/lock events of the server. -/
inductive Ev where
  | lock
  | unlock
  | send (sock : Socket) (msg : String)
  | close (sock : Socket)
deriving DecidableEq, Repr

/-- The membership-removal block of `handle_client`
(src/server.cpp lines 106-112) and of the thread-spawn failure path
(lines 221-227): `std::find` the socket in `clients` and `erase` the
first occurrence if found; otherwise the vector is untouched. -/
def deregister (clients : List Socket) (s : Socket) : List Socket :=
  match clients with
  | [] => []
  | c :: rest => if c = s then rest else c :: deregister rest s

/-- The admission block of the accept loop (src/server.cpp lines
202-213), for a freshly accepted socket `s`: under the lock, if
`clients.size() >= MAX_CLIENTS` the server sends the rejection line to
`s`, closes `s`, and leaves `clients` unchanged; otherwise it does
`clients.push_back(s)`.  Returns the new membership and the network
events emitted. -/
def acceptClient (clients : List Socket) (s : Socket) : List Socket × List Ev :=
  if MAX_CLIENTS ≤ clients.length then
    (clients, [Ev.send s serverFullMsg, Ev.close s])
  else
    (clients ++ [s], [])

/-- One membership mutation of the server.  `accept` is the admission
block for a freshly accepted descriptor: the operating system only
returns a descriptor that is not currently open, and every member of
`clients` is still open (it is closed only after being erased), so the
accepted socket is valid and not already a member.  `deregister` covers
both the `handle_client` cleanup and the thread-spawn failure cleanup. -/
inductive Step : List Socket → List Socket → Prop where
  | accept (clients : List Socket) (s : Socket)
      (hvalid : s ≠ INVALID_SOCKET) (hfresh : s ∉ clients) :
      Step clients (acceptClient clients s).1
  | deregister (clients : List Socket) (s : Socket) :
      Step clients (deregister clients s)

/-- Membership states reachable from the initial empty vector
(src/server.cpp line 52: `std::vector<socket_t> clients`). -/
inductive Reachable : List Socket → Prop where
  | init : Reachable []
  | step {c c' : List Socket} : Reachable c → Step c c' → Reachable c'

/-- The membership invariant maintained by the server: at most
MAX_CLIENTS entries, no duplicate descriptors, no invalid descriptor. -/
def Inv (clients : List Socket) : Prop :=
  clients.length ≤ MAX_CLIENTS ∧ clients.Nodup ∧ INVALID_SOCKET ∉ clients

/-- The peers that `broadcast_message` iterates over (src/server.cpp
lines 58-59): every member of `clients` other than the sender and other
than `INVALID_SOCKET`. -/
def broadcastTargets (clients : List Socket) (sender : Socket) : List Socket :=
  clients.filter (fun c => !(c == sender) && !(c == INVALID_SOCKET))

/-- The loop body of `broadcast_message` (src/server.cpp lines 58-65):
walks the membership in order; for each valid non-sender peer a `send`
is attempted; when `send` returns `SOCKET_ERROR` (`fails c = true`) the
error is only written to `std::cerr` and the loop continues.  Returns
the peers to which a send was attempted and the peers whose send
failed. -/
def broadcastGo (sender : Socket) (fails : Socket → Bool) :
    List Socket → List Socket × List Socket
  | [] => ([], [])
  | c :: rest =>
    if !(c == sender) && !(c == INVALID_SOCKET) then
      if fails c then
        (c :: (broadcastGo sender fails rest).1, c :: (broadcastGo sender fails rest).2)
      else
        (c :: (broadcastGo sender fails rest).1, (broadcastGo sender fails rest).2)
    else broadcastGo sender fails rest

/-- Observable outcome of one `broadcast_message` call. -/
structure BroadcastResult where
  attempted : List Socket
  failedPeers : List Socket
  clientsAfter : List Socket
  raisedError : Bool
deriving DecidableEq, Repr

/-- `broadcast_message` (src/server.cpp lines 56-67): locks
`clients_mutex`, attempts a send to every valid peer other than the
sender, and returns.  The function never erases anything from `clients`
(so the membership when it returns is the membership it was given) and
returns `void` (no error is ever surfaced to the caller). -/
def broadcast_message (clients : List Socket) (sender : Socket)
    (fails : Socket → Bool) : BroadcastResult :=
  { attempted := (broadcastGo sender fails clients).1
    failedPeers := (broadcastGo sender fails clients).2
    clientsAfter := clients
    raisedError := false }

/-- Lock/network event trace of one `broadcast_message` call
(src/server.cpp lines 56-67): the `std::lock_guard` acquires
`clients_mutex` on entry, the loop performs the per-peer `send` calls,
and the guard releases the mutex when it goes out of scope at the end
of the function, after the loop. -/
def broadcastTrace (clients : List Socket) (sender : Socket) (msg : String) :
    List Ev :=
  Ev.lock :: ((broadcastTargets clients sender).map (fun c => Ev.send c msg) ++ [Ev.unlock])

/-- The send events of a trace that occur while the mutex is held: scan
the trace tracking whether a lock acquisition has happened without a
matching release, and collect the send events seen in that window. -/
def sendsWhileLocked : List Ev → Bool → List Ev
  | [], _ => []
  | Ev.lock :: r, _ => sendsWhileLocked r true
  | Ev.unlock :: r, _ => sendsWhileLocked r false
  | Ev.send c m :: r, locked =>
      (if locked then [Ev.send c m] else []) ++ sendsWhileLocked r locked
  | Ev.close _ :: r, locked => sendsWhileLocked r locked

/-- One iteration of the receive loop of `handle_client`
(src/server.cpp lines 80-93): the received payload is right-trimmed; an
empty result is skipped (`continue`), a non-empty result is prefixed
with the session identity and handed to `broadcast_message`.  Returns
`none` when the payload is discarded, otherwise the broadcast text. -/
def process_payload (cid : String) (raw : String) : Option String :=
  if rtrimS raw = "" then none else some (cid ++ ": " ++ rtrimS raw)

/-- The per-peer deliveries caused by one received payload of the
session owning socket `s`: nothing when the trimmed payload is empty,
otherwise the tagged text to every broadcast target. -/
def handleMessage (clients : List Socket) (s : Socket) (raw : String) :
    List (Socket × String) :=
  match process_payload (client_id s) raw with
  | none => []
  | some msg => (broadcastTargets clients s).map (fun c => (c, msg))

/-- Observable actions of the client send loop. -/
inductive ClientAct where
  | sendMsg (m : String)
  | shutdownWr
deriving DecidableEq, Repr

/-- `send_messages` of src/client.cpp (lines 106-159), modelled on the
sequence of lines read from standard input (the end of the list is
end-of-file).  The loop: a raw line exactly equal to `"/quit"` breaks
out without sending; an empty line is skipped; any other line is sent
to the server.  After the loop exits, for any reason, the client calls
`shutdown(sock, SHUT_WR)`: a half-close of the outbound direction only
(the socket itself is closed later by `main`, after both threads have
finished). -/
def send_messages : List String → List ClientAct
  | [] => [ClientAct.shutdownWr]
  | line :: rest =>
    if line = "/quit" then [ClientAct.shutdownWr]
    else if line = "" then send_messages rest
    else ClientAct.sendMsg line :: send_messages rest

/-- Characters skipped by `std::stoi` before the number (the `isspace`
set of the C locale). -/
def isSpaceChar (c : Char) : Bool :=
  c == ' ' || c == '\t' || c == '\n' || c == '\x0b' || c == '\x0c' || c == '\r'

/-- Value of a digit run. -/
def digitsVal (ds : List Char) : Nat :=
  ds.foldl (fun a c => 10 * a + (c.toNat - 48)) 0

/-- Result of `std::stoi`: a value, or one of the two exceptions caught
by src/client.cpp lines 170-178. -/
inductive StoiResult where
  | ok (v : Int)
  | invalidArgument
  | outOfRange
deriving DecidableEq, Repr

/-- Largest `int` value on the target platforms (32-bit `int`). -/
def INT_MAX : Int := 2147483647

/-- Smallest `int` value on the target platforms (32-bit `int`). -/
def INT_MIN : Int := -2147483648

/-- Optional sign consumed by `std::stoi`. -/
def stoiSign (l : List Char) : Int × List Char :=
  match l with
  | '-' :: r => (-1, r)
  | '+' :: r => (1, r)
  | _ => (1, l)

/-- `std::stoi(argv[2])` as called by src/client.cpp line 171: skip
leading whitespace, consume an optional sign and then the maximal run
of decimal digits (trailing junk is ignored); no digit at all raises
`std::invalid_argument`, and a value outside the `int` range raises
`std::out_of_range`. -/
def stoi (s : List Char) : StoiResult :=
  if ((stoiSign (s.dropWhile isSpaceChar)).2.takeWhile Char.isDigit).isEmpty then
    StoiResult.invalidArgument
  else
    if (stoiSign (s.dropWhile isSpaceChar)).1 *
        (digitsVal ((stoiSign (s.dropWhile isSpaceChar)).2.takeWhile Char.isDigit) : Int) < INT_MIN ∨
       INT_MAX < (stoiSign (s.dropWhile isSpaceChar)).1 *
        (digitsVal ((stoiSign (s.dropWhile isSpaceChar)).2.takeWhile Char.isDigit) : Int) then
      StoiResult.outOfRange
    else
      StoiResult.ok ((stoiSign (s.dropWhile isSpaceChar)).1 *
        (digitsVal ((stoiSign (s.dropWhile isSpaceChar)).2.takeWhile Char.isDigit) : Int))

/-- Socket-phase actions of the client `main`. -/
inductive CEv where
  | createSocket
  | connectTo (port : Int)
deriving DecidableEq, Repr

/-- The argument-validation prefix of the client `main`
(src/client.cpp lines 162-227): wrong argument count, a port argument
on which `std::stoi` throws, or a parsed port outside 1-65535 all
`return EXIT_FAILURE` before `socket()` is called.  Only after the
checks pass does the client create its socket and attempt the
connection (whose operating-system outcome, like that of `inet_pton`,
is environment-dependent; the model records the attempts).  Returns the
socket-phase actions performed and whether the process exited with
`EXIT_FAILURE` during validation. -/
def client_main (args : List String) : List CEv × Bool :=
  if args.length ≠ 3 then ([], true)
  else
    match stoi (args.getD 2 "").data with
    | StoiResult.invalidArgument => ([], true)
    | StoiResult.outOfRange => ([], true)
    | StoiResult.ok p =>
      if p ≤ 0 ∨ 65535 < p then ([], true)
      else ([CEv.createSocket, CEv.connectTo p], false)

/-- Membership of the name-keyed registry variant: live handle paired
with its assigned identity. -/
abbrev Registry := List (Socket × String)

/-- Whether an identity string is already held by a live entry. -/
def nameTaken (reg : Registry) (name : String) : Bool :=
  reg.any (fun e => e.2 == name)

/-- The successive candidate names tried for a proposed identity:
the proposal itself, then `proposed_1`, `proposed_2`, and so on.  `n`
suffixes suffice against a registry of `n` entries. -/
def candidates (proposed : String) (n : Nat) : List String :=
  proposed :: (List.range n).map (fun k => proposed ++ "_" ++ toString (k + 1))

/-- Modelled from the spec: the name-keyed registry revision of the
server (the repository's duplicate program revision adopted by the
spec, absent from src/, whose list-only revision keys members by raw
socket only).  Per spec 4.1, if `proposed` already exists the register
operation appends `_1`, `_2`, ... trying successive suffixes against
the current membership until a name is found that does not collide;
the result is the first non-colliding candidate. -/
def resolve_name (reg : Registry) (proposed : String) : String :=
  ((candidates proposed reg.length).find? (fun c => !(nameTaken reg c))).getD
    (proposed ++ "_" ++ toString (reg.length + 1))

/-- Modelled from the spec: `register` of the name-keyed registry
revision (spec 4.1, absent from src/).  Under exclusive access, a full
registry fails with `CapacityExceeded`; otherwise the collision-free
name chosen by `resolve_name` is inserted atomically with the scan and
returned as the final assigned identity. -/
def register (reg : Registry) (hdl : Socket) (proposed : String) :
    Except String (String × Registry) :=
  if MAX_CLIENTS ≤ reg.length then Except.error "CapacityExceeded"
  else Except.ok (resolve_name reg proposed, reg ++ [(hdl, resolve_name reg proposed)])

/-- Observable events of one session of the name-keyed revision. -/
inductive SEv where
  | recvPayload (raw : String)
  | sendTo (sock : Socket) (text : String)
  | broadcastEv (text : String)
  | loopStart
deriving DecidableEq, Repr

/-- Fallback identity when the first payload is empty or unreceivable
(spec 4.2). -/
def anonymousName : String := "anonymous"

/-- Representative human-readable welcome line (spec 6, step 3). -/
def welcomeLine (name : String) : String := "Welcome, " ++ name ++ "!"

/-- Representative join announcement (spec 6, step 4). -/
def joinLine (name : String) : String := name ++ " has joined the chat."

/-- Modelled from the spec: the identity a session derives during the
handshake of the name-keyed revision (spec 4.2 Registering, absent from
src/): the trimmed first payload, falling back to an anonymous name
when it is empty or was never received. -/
def session_identity (payloads : List String) : String :=
  if rtrimS (payloads.headD "") = "" then anonymousName
  else rtrimS (payloads.headD "")

/-- The ordinary message loop of a session: each later payload is
received, trimmed, and either discarded (empty) or broadcast tagged
with the session identity. -/
def loop_events (name : String) : List String → List SEv
  | [] => []
  | raw :: rest =>
    SEv.recvPayload raw ::
      ((if rtrimS raw = "" then []
        else [SEv.broadcastEv ("[" ++ name ++ "]: " ++ rtrimS raw)]) ++
        loop_events name rest)

/-- Modelled from the spec: the event trace of one session of the
name-keyed revision (spec 4.2 and 6, absent from src/), given the
payloads its connection delivers in order.  Bootstrap: one receive of
the very first payload, the welcome line sent directly (only) to the
session's own connection, the join announcement broadcast to the
others; then the ordinary message loop begins. -/
def session_events (sock : Socket) (payloads : List String) : List SEv :=
  SEv.recvPayload (payloads.headD "") ::
  SEv.sendTo sock (welcomeLine (session_identity payloads)) ::
  SEv.broadcastEv (joinLine (session_identity payloads)) ::
  SEv.loopStart ::
  loop_events (session_identity payloads) payloads.tail

/-- Recognizer for receive events. -/
def isRecvEv : SEv → Bool
  | SEv.recvPayload _ => true
  | _ => false

/-- Recognizer for direct (non-broadcast) send events. -/
def isSendToEv : SEv → Bool
  | SEv.sendTo _ _ => true
  | _ => false

theorem deregister_sublist (clients : List Socket) (s : Socket) :
    (deregister clients s).Sublist clients := by
  induction clients with
  | nil => simp [deregister]
  | cons c rest ih =>
    by_cases h : c = s
    · simp [deregister, h]
    · simpa [deregister, h] using ih.cons₂ c

theorem mem_of_mem_deregister {clients : List Socket} {s x : Socket}
    (h : x ∈ deregister clients s) : x ∈ clients :=
  (deregister_sublist clients s).mem h

theorem deregister_eq_of_not_mem {clients : List Socket} {s : Socket}
    (h : s ∉ clients) : deregister clients s = clients := by
  induction clients with
  | nil => rfl
  | cons c rest ih =>
    have hcs : c ≠ s := fun hcs => h (hcs ▸ List.mem_cons_self c rest)
    have hs : s ∉ rest := fun hs => h (List.mem_cons_of_mem c hs)
    simp [deregister, hcs, ih hs]

theorem not_mem_deregister {clients : List Socket} {s : Socket}
    (hnd : clients.Nodup) : s ∉ deregister clients s := by
  induction clients with
  | nil => simp [deregister]
  | cons c rest ih =>
    rcases List.nodup_cons.mp hnd with ⟨hc, hrest⟩
    by_cases h : c = s
    · subst h
      simpa [deregister] using hc
    · intro hmem
      rcases List.mem_cons.mp (by simpa [deregister, h] using hmem) with h1 | h1
      · exact h h1.symm
      · exact ih hrest h1

theorem inv_preserved {c c' : List Socket} (hinv : Inv c) (hs : Step c c') :
    Inv c' := by
  rcases hinv with ⟨hlen, hnd, hval⟩
  cases hs with
  | accept s hvalid hfresh =>
    by_cases hcap : MAX_CLIENTS ≤ c.length
    · exact ⟨by simpa [acceptClient, hcap] using hlen,
        by simpa [acceptClient, hcap] using hnd,
        by simpa [acceptClient, hcap] using hval⟩
    · refine ⟨?_, ?_, ?_⟩
      · have hlt : c.length < MAX_CLIENTS := Nat.lt_of_not_le hcap
        simpa [acceptClient, hcap] using hlt
      · simp only [acceptClient, hcap, if_false]
        refine List.nodup_append.mpr ⟨hnd, List.nodup_singleton s, ?_⟩
        simpa [List.disjoint_singleton] using hfresh
      · simp only [acceptClient, hcap, if_false]
        intro hmem
        rcases List.mem_append.mp hmem with h1 | h1
        · exact hval h1
        · have h2 : INVALID_SOCKET = s := by simpa using h1
          exact hvalid h2.symm
  | deregister s =>
    refine ⟨le_trans (deregister_sublist c s).length_le hlen,
      hnd.sublist (deregister_sublist c s),
      fun h => hval (mem_of_mem_deregister h)⟩

theorem reachable_inv {clients : List Socket} (h : Reachable clients) :
    Inv clients := by
  induction h with
  | init => exact ⟨by simp [MAX_CLIENTS], List.nodup_nil, by simp⟩
  | step _ hs ih => exact inv_preserved ih hs

/-- Every duplicate-free list of valid descriptors of length at most
MAX_CLIENTS is a reachable membership state: accept its elements in
order from the empty state. -/
theorem reachable_upto (l : List Socket) (hnd : l.Nodup)
    (hval : INVALID_SOCKET ∉ l) (hlen : l.length ≤ MAX_CLIENTS) :
    Reachable l := by
  induction l using List.reverseRecOn with
  | nil => exact Reachable.init
  | append_singleton l a ih =>
    have hndl : l.Nodup := hnd.sublist (List.sublist_append_left l [a])
    have hfresh : a ∉ l := by
      intro hmem
      have : ¬ (l ++ [a]).Nodup := by
        intro hc
        rcases List.nodup_append.mp hc with ⟨-, -, hdisj⟩
        exact hdisj hmem (List.mem_singleton_self a)
      exact this hnd
    have hvall : INVALID_SOCKET ∉ l := fun h => hval (List.mem_append_left _ h)
    have hvala : a ≠ INVALID_SOCKET := by
      intro h
      exact hval (List.mem_append_right _ (by simp [h]))
    have hlenl : l.length ≤ MAX_CLIENTS := by
      have := hlen
      simp only [List.length_append, List.length_singleton] at this
      omega
    have hllt : l.length < MAX_CLIENTS := by
      have := hlen
      simp only [List.length_append, List.length_singleton] at this
      omega
    have hstep := Step.accept l a hvala hfresh
    have hacc : (acceptClient l a).1 = l ++ [a] := by
      simp [acceptClient, Nat.not_le.mpr hllt]
    exact Reachable.step (ih hndl hvall hlenl) (hacc ▸ hstep)

theorem broadcastGo_fst (clients : List Socket) (sender : Socket)
    (fails : Socket → Bool) :
    (broadcastGo sender fails clients).1 = broadcastTargets clients sender := by
  induction clients with
  | nil => rfl
  | cons c rest ih =>
    by_cases h : (!(c == sender) && !(c == INVALID_SOCKET)) = true
    · by_cases hf : fails c = true
      · simp [broadcastGo, broadcastTargets, List.filter_cons, h, hf, ih]
      · simp [broadcastGo, broadcastTargets, List.filter_cons, h, hf, ih]
    · simp [broadcastGo, broadcastTargets, List.filter_cons, h, ih]

theorem sendsWhileLocked_map_sends (targets : List Socket) (msg : String) :
    sendsWhileLocked (targets.map (fun c => Ev.send c msg) ++ [Ev.unlock]) true =
      targets.map (fun c => Ev.send c msg) := by
  induction targets with
  | nil => rfl
  | cons c rest ih => simp [sendsWhileLocked, ih]

theorem find?_first {α : Type} {p : α → Bool} {l : List α} {a : α}
    (h : l.find? p = some a) :
    ∃ pre post, l = pre ++ a :: post ∧ (∀ x ∈ pre, p x = false) ∧ p a = true := by
  induction l with
  | nil => simp [List.find?] at h
  | cons x xs ih =>
    by_cases hx : p x = true
    · rw [List.find?_cons_of_pos _ hx] at h
      obtain rfl : x = a := by injection h
      exact ⟨[], xs, rfl, by simp, hx⟩
    · rw [List.find?_cons_of_neg _ hx] at h
      obtain ⟨pre, post, rfl, hpre, hpa⟩ := ih h
      refine ⟨x :: pre, post, rfl, ?_, hpa⟩
      intro y hy
      rcases List.mem_cons.mp hy with rfl | hy2
      · simpa using hx
      · exact hpre y hy2

theorem find?_isSome_of_mem {α : Type} {p : α → Bool} {l : List α} {x : α}
    (hx : x ∈ l) (hp : p x = true) : ∃ a, l.find? p = some a := by
  induction l with
  | nil => cases hx
  | cons y ys ih =>
    by_cases hy : p y = true
    · exact ⟨y, List.find?_cons_of_pos _ hy⟩
    · rcases List.mem_cons.mp hx with rfl | hx2
      · exact absurd hp hy
      · obtain ⟨a, ha⟩ := ih hx2
        exact ⟨a, by rw [List.find?_cons_of_neg _ hy]; exact ha⟩

theorem sendTo_not_in_loop (name : String) (l : List String) (d : Socket)
    (t : String) : SEv.sendTo d t ∉ loop_events name l := by
  induction l with
  | nil => simp [loop_events]
  | cons raw rest ih =>
    by_cases hr : rtrimS raw = ""
    · simp [loop_events, hr, ih]
    · simp [loop_events, hr, ih]

/-- C1: every reachable membership state holds at most MAX_CLIENTS
entries; when live membership is at MAX_CLIENTS, the admission block
rejects the next connection with the human-readable rejection line,
closes its socket, and leaves the membership unchanged (the rejected
socket is never added). -/
theorem capacity_invariant_and_rejection (clients : List Socket)
    (hr : Reachable clients) :
    clients.length ≤ MAX_CLIENTS ∧
    ∀ s : Socket, clients.length = MAX_CLIENTS → s ∉ clients →
      (acceptClient clients s).1 = clients ∧
      (acceptClient clients s).2 = [Ev.send s serverFullMsg, Ev.close s] ∧
      s ∉ (acceptClient clients s).1 := by
  obtain ⟨hlen, -, -⟩ := reachable_inv hr
  refine ⟨hlen, ?_⟩
  intro s hfull hs
  have hcap : MAX_CLIENTS ≤ clients.length := le_of_eq hfull.symm
  exact ⟨by simp [acceptClient, hcap], by simp [acceptClient, hcap],
    by simpa [acceptClient, hcap] using hs⟩

/-- Witness for C1 at a concrete membership state of size MAX_CLIENTS. -/
theorem capacity_invariant_and_rejection_witness :
    ([1, 2, 3, 4, 5, 6, 7, 8, 9, 10] : List Socket).length ≤ MAX_CLIENTS ∧
    (acceptClient [1, 2, 3, 4, 5, 6, 7, 8, 9, 10] 11).1 = [1, 2, 3, 4, 5, 6, 7, 8, 9, 10] ∧
    (acceptClient [1, 2, 3, 4, 5, 6, 7, 8, 9, 10] 11).2 =
      [Ev.send 11 serverFullMsg, Ev.close 11] ∧
    (11 : Socket) ∉ (acceptClient [1, 2, 3, 4, 5, 6, 7, 8, 9, 10] 11).1 := by
  have hr : Reachable [1, 2, 3, 4, 5, 6, 7, 8, 9, 10] :=
    reachable_upto _ (by decide) (by decide) (by decide)
  have h := capacity_invariant_and_rejection _ hr
  exact ⟨h.1, (h.2 11 (by decide) (by decide)).1, (h.2 11 (by decide) (by decide)).2.1,
    (h.2 11 (by decide) (by decide)).2.2⟩

/-- C4 counterexample: `broadcast_message` performs its per-peer send
calls while `clients_mutex` is held.  With membership sockets 4 and 7
and sender 4 the event trace is lock, send to 7, unlock; the send lies
inside the locked window, so the list of sends performed under the lock
is not empty, refuting the claim that every send happens outside the
mutual-exclusion domain. -/
theorem broadcast_lock_held_counterexample :
    broadcastTrace [4, 7] 4 "hi" = [Ev.lock, Ev.send 7 "hi", Ev.unlock] ∧
    sendsWhileLocked (broadcastTrace [4, 7] 4 "hi") false = [Ev.send 7 "hi"] ∧
    sendsWhileLocked (broadcastTrace [4, 7] 4 "hi") false ≠ [] :=
  ⟨by decide, by decide, by decide⟩

/-- C4 amended: the fan-out iterates the shared membership vector
directly (no snapshot copy is taken) and every per-peer send call
happens inside the mutual-exclusion domain: the membership lock is held
across every network send of the broadcast. -/
theorem broadcast_sends_inside_lock (clients : List Socket) (sender : Socket)
    (msg : String) :
    sendsWhileLocked (broadcastTrace clients sender msg) false =
      (broadcastTargets clients sender).map (fun c => Ev.send c msg) :=
  sendsWhileLocked_map_sends (broadcastTargets clients sender) msg

/-- C5: a broadcast never attempts delivery to the sender's own socket,
and attempts delivery to every other member of a reachable membership
state, whatever the per-peer send outcomes. -/
theorem broadcast_no_self_delivery (clients : List Socket)
    (hr : Reachable clients) (sender : Socket) (fails : Socket → Bool) :
    sender ∉ (broadcast_message clients sender fails).attempted ∧
    ∀ c ∈ clients, c ≠ sender →
      c ∈ (broadcast_message clients sender fails).attempted := by
  obtain ⟨-, -, hval⟩ := reachable_inv hr
  have hfst : (broadcast_message clients sender fails).attempted =
      broadcastTargets clients sender := broadcastGo_fst clients sender fails
  rw [hfst]
  constructor
  · intro hmem
    rcases List.mem_filter.mp hmem with ⟨-, hcond⟩
    simp at hcond
  · intro c hc hcs
    refine List.mem_filter.mpr ⟨hc, ?_⟩
    have hcv : c ≠ INVALID_SOCKET := fun h => hval (h ▸ hc)
    simp [hcs, hcv]

/-- Witness for C5 at a concrete reachable membership state. -/
theorem broadcast_no_self_delivery_witness :
    (2 : Socket) ∉ (broadcast_message [2, 3] 2 (fun _ => false)).attempted ∧
    (3 : Socket) ∈ (broadcast_message [2, 3] 2 (fun _ => false)).attempted := by
  have hr : Reachable [2, 3] := reachable_upto _ (by decide) (by decide) (by decide)
  exact ⟨(broadcast_no_self_delivery _ hr 2 _).1,
    (broadcast_no_self_delivery _ hr 2 _).2 3 (by decide) (by decide)⟩

/-- C6: when the send to one fan-out target fails, the broadcaster
still attempts delivery to every target in membership order, surfaces
no error to the calling session (the function returns void), and
removes nothing from the membership. -/
theorem broadcast_best_effort_isolation (clients : List Socket)
    (sender p : Socket) (fails : Socket → Bool)
    (_hp : p ∈ broadcastTargets clients sender) (_hfail : fails p = true) :
    (broadcast_message clients sender fails).attempted =
      broadcastTargets clients sender ∧
    (broadcast_message clients sender fails).clientsAfter = clients ∧
    (broadcast_message clients sender fails).raisedError = false :=
  ⟨broadcastGo_fst clients sender fails, rfl, rfl⟩

/-- Witness for C6: the send to socket 5 fails, yet delivery is
attempted to every target, no error is raised and membership is kept. -/
theorem broadcast_best_effort_isolation_witness :
    (5 : Socket) ∈ broadcastTargets [3, 5] 3 ∧
    (fun c : Socket => c == 5) 5 = true ∧
    (broadcast_message [3, 5] 3 (fun c => c == 5)).attempted =
      broadcastTargets [3, 5] 3 ∧
    (broadcast_message [3, 5] 3 (fun c => c == 5)).clientsAfter = [3, 5] ∧
    (broadcast_message [3, 5] 3 (fun c => c == 5)).raisedError = false := by
  have h := broadcast_best_effort_isolation [3, 5] 3 5 (fun c => c == 5)
    (by decide) (by decide)
  exact ⟨by decide, by decide, h.1, h.2.1, h.2.2⟩

/-- C7: on every reachable membership state, deregistration removes the
handle when present, is a no-op when absent, and deregistering twice
yields the same membership as deregistering once. -/
theorem deregister_idempotent (clients : List Socket) (hr : Reachable clients)
    (s : Socket) :
    (s ∉ clients → deregister clients s = clients) ∧
    s ∉ deregister clients s ∧
    deregister (deregister clients s) s = deregister clients s := by
  obtain ⟨-, hnd, -⟩ := reachable_inv hr
  exact ⟨fun h => deregister_eq_of_not_mem h, not_mem_deregister hnd,
    deregister_eq_of_not_mem (not_mem_deregister hnd)⟩

/-- Witness for C7 at a concrete reachable membership state. -/
theorem deregister_idempotent_witness :
    deregister [2, 3] 7 = [2, 3] ∧
    (2 : Socket) ∉ deregister [2, 3] 2 ∧
    deregister (deregister [2, 3] 2) 2 = deregister [2, 3] 2 := by
  have hr : Reachable [2, 3] := reachable_upto _ (by decide) (by decide) (by decide)
  exact ⟨(deregister_idempotent _ hr 7).1 (by decide),
    (deregister_idempotent _ hr 2).2.1, (deregister_idempotent _ hr 2).2.2⟩

/-- C8: each inbound payload is right-trimmed of its trailing run of
CR/LF/whitespace characters; a payload that trims to empty is silently
discarded (no delivery), and a payload that trims non-empty is
delivered to every other session tagged with the sending session's
identity. -/
theorem payload_trim_discard_tagged (clients : List Socket) (s : Socket)
    (raw : String) :
    raw.data = (rtrimS raw).data ++ trailingTrim raw.data ∧
    (∀ c ∈ trailingTrim raw.data, isTrimChar c = true) ∧
    (rtrimS raw = "" → handleMessage clients s raw = []) ∧
    (rtrimS raw ≠ "" →
      handleMessage clients s raw =
        (broadcastTargets clients s).map
          (fun c => (c, client_id s ++ ": " ++ rtrimS raw))) := by
  refine ⟨?_, ?_, ?_, ?_⟩
  · have h := List.takeWhile_append_dropWhile (p := isTrimChar) (l := raw.data.reverse)
    calc raw.data = raw.data.reverse.reverse := (List.reverse_reverse _).symm
      _ = (raw.data.reverse.takeWhile isTrimChar ++
            raw.data.reverse.dropWhile isTrimChar).reverse := by rw [h]
      _ = (rtrimS raw).data ++ trailingTrim raw.data := by
            rw [List.reverse_append]; rfl
  · intro c hc
    have hc2 : c ∈ (raw.data.reverse.takeWhile isTrimChar).reverse := hc
    exact List.mem_takeWhile_imp (List.mem_reverse.mp hc2)
  · intro h0
    simp [handleMessage, process_payload, h0]
  · intro h0
    simp [handleMessage, process_payload, h0]

/-- Witness for C8 on a payload with a trailing carriage return and
line feed. -/
theorem payload_trim_discard_tagged_witness :
    rtrimS "hi \r\n" ≠ "" ∧
    handleMessage [2, 5] 2 "hi \r\n" =
      (broadcastTargets [2, 5] 2).map
        (fun c => (c, client_id 2 ++ ": " ++ rtrimS "hi \r\n")) :=
  ⟨by decide, (payload_trim_discard_tagged [2, 5] 2 "hi \r\n").2.2.2 (by decide)⟩

/-- C9 counterexample: the client compares the raw input line against
the quit literal without trimming, so a line consisting of the quit
literal followed by a space trims to the quit literal yet is
transmitted to the server as an ordinary message, and the send loop
does not terminate there (the following line is still sent). -/
theorem quit_trimmed_transmitted_counterexample :
    rtrimS "/quit " = "/quit" ∧
    send_messages ["/quit ", "hello"] =
      [ClientAct.sendMsg "/quit ", ClientAct.sendMsg "hello", ClientAct.shutdownWr] ∧
    ClientAct.sendMsg "/quit " ∈ send_messages ["/quit ", "hello"] :=
  ⟨by decide, by decide, by decide⟩

/-- C9 amended: a local input line that is exactly the quit literal
(raw comparison, no trimming) terminates the client's send loop without
being transmitted: the transmitted messages are exactly the earlier
non-empty lines, every later line is ignored, and the loop ends with
the write-side half-close of the connection. -/
theorem quit_exact_match_halfclose (pre rest : List String)
    (hpre : "/quit" ∉ pre) :
    send_messages (pre ++ "/quit" :: rest) =
      (pre.filter (fun l => !(l == ""))).map ClientAct.sendMsg ++
        [ClientAct.shutdownWr] := by
  induction pre with
  | nil => simp [send_messages]
  | cons a pre ih =>
    have ha : a ≠ "/quit" := fun h => hpre (h ▸ List.mem_cons_self a pre)
    have hpre2 : "/quit" ∉ pre := fun h => hpre (List.mem_cons_of_mem a h)
    by_cases he : a = ""
    · simp [send_messages, he, ih hpre2, List.filter_cons]
    · simp [send_messages, ha, he, ih hpre2, List.filter_cons]

/-- Witness for C9 amended. -/
theorem quit_exact_match_halfclose_witness :
    "/quit" ∉ ["hello"] ∧
    send_messages (["hello"] ++ "/quit" :: ["after"]) =
      (["hello"].filter (fun l => !(l == ""))).map ClientAct.sendMsg ++
        [ClientAct.shutdownWr] :=
  ⟨by decide, quit_exact_match_halfclose ["hello"] ["after"] (by decide)⟩

/-- C10: when the port argument is non-numeric (`std::stoi` raises
invalid_argument), out of integer range (`std::stoi` raises
out_of_range), or parses to a value outside 1-65535, the client exits
with a failure status before creating a socket or attempting a
connection: no socket-phase action is performed. -/
theorem invalid_port_exits_before_socket (args : List String)
    (hbad : stoi (args.getD 2 "").data = StoiResult.invalidArgument ∨
      stoi (args.getD 2 "").data = StoiResult.outOfRange ∨
      ∃ p : Int, stoi (args.getD 2 "").data = StoiResult.ok p ∧
        (p ≤ 0 ∨ 65535 < p)) :
    (client_main args).1 = [] ∧ (client_main args).2 = true := by
  have hmain : client_main args = ([], true) := by
    by_cases h3 : args.length ≠ 3
    · simp only [client_main, if_pos h3]
    · rcases hbad with h | h | ⟨p, hp, hrange⟩
      · simp only [client_main, if_neg h3, h]
      · simp only [client_main, if_neg h3, h]
      · simp only [client_main, if_neg h3, hp]
        rw [if_pos hrange]
  rw [hmain]
  exact ⟨rfl, rfl⟩

/-- Witness for C10 on a non-numeric port argument. -/
theorem invalid_port_exits_before_socket_witness :
    stoi ((["./client", "127.0.0.1", "abc"].getD 2 "")).data =
      StoiResult.invalidArgument ∧
    (client_main ["./client", "127.0.0.1", "abc"]).1 = [] ∧
    (client_main ["./client", "127.0.0.1", "abc"]).2 = true := by
  have h := invalid_port_exits_before_socket ["./client", "127.0.0.1", "abc"]
    (Or.inl (by decide))
  exact ⟨by decide, h.1, h.2⟩

/-- C2: registration against the name-keyed registry resolves an
identity collision deterministically: the client is admitted (not
rejected) under the first candidate of the successive-suffix sequence
that does not collide with the current membership, the chosen identity
differs from the colliding proposal, and the new entry joins the
membership under that identity. -/
theorem register_resolves_collisions (reg : Registry) (hdl : Socket)
    (proposed : String) (hcap : reg.length < MAX_CLIENTS)
    (hcoll : nameTaken reg proposed = true)
    (hfree : ∃ c ∈ candidates proposed reg.length, nameTaken reg c = false) :
    ∃ pre post,
      register reg hdl proposed =
        Except.ok (resolve_name reg proposed,
          reg ++ [(hdl, resolve_name reg proposed)]) ∧
      nameTaken reg (resolve_name reg proposed) = false ∧
      resolve_name reg proposed ≠ proposed ∧
      candidates proposed reg.length = pre ++ resolve_name reg proposed :: post ∧
      (∀ x ∈ pre, nameTaken reg x = true) := by
  obtain ⟨c, hc, hcfree⟩ := hfree
  obtain ⟨a, ha⟩ :=
    find?_isSome_of_mem (p := fun c => !(nameTaken reg c)) hc (by simp [hcfree])
  obtain ⟨pre, post, hdecomp, hpre, hpa⟩ := find?_first ha
  have hres : resolve_name reg proposed = a := by simp [resolve_name, ha]
  have hafree : nameTaken reg a = false := by simpa using hpa
  refine ⟨pre, post, ?_, ?_, ?_, ?_, ?_⟩
  · simp [register, Nat.not_le.mpr hcap]
  · rw [hres]; exact hafree
  · rw [hres]
    intro he
    rw [he] at hafree
    rw [hcoll] at hafree
    cases hafree
  · rw [hres]; exact hdecomp
  · intro x hx
    have h := hpre x hx
    simpa using h

/-- Witness for C2: a second client proposing "alice" while "alice" is
live is admitted with registered identity "alice_1". -/
theorem register_resolves_collisions_witness :
    resolve_name [((3 : Socket), "alice")] "alice" = "alice_1" ∧
    register [((3 : Socket), "alice")] 7 "alice" =
      Except.ok (resolve_name [((3 : Socket), "alice")] "alice",
        [((3 : Socket), "alice")] ++
          [((7 : Socket), resolve_name [((3 : Socket), "alice")] "alice")]) ∧
    nameTaken [((3 : Socket), "alice")]
      (resolve_name [((3 : Socket), "alice")] "alice") = false ∧
    resolve_name [((3 : Socket), "alice")] "alice" ≠ "alice" := by
  obtain ⟨pre, post, h1, h2, h3, -, -⟩ :=
    register_resolves_collisions [((3 : Socket), "alice")] 7 "alice"
      (by decide) (by decide) ⟨"alice_1", by decide, by decide⟩
  exact ⟨by decide, h1, h2, h3⟩

/-- C3: a session of the name-keyed revision performs exactly one
receive before the ordinary message loop begins, that receive is of the
very first payload, the identity is derived from that payload
(trimmed), and the welcome line is sent directly to that client's own
connection only. -/
theorem bootstrap_single_receive_welcome (sock : Socket) (first : String)
    (rest : List String) (hname : rtrimS first ≠ "") :
    ((session_events sock (first :: rest)).takeWhile
        (fun e => !(e == SEv.loopStart))).filter isRecvEv =
      [SEv.recvPayload first] ∧
    ((session_events sock (first :: rest)).takeWhile
        (fun e => !(e == SEv.loopStart))).filter isSendToEv =
      [SEv.sendTo sock (welcomeLine (rtrimS first))] ∧
    (∀ d t, SEv.sendTo d t ∈ session_events sock (first :: rest) → d = sock) ∧
    session_identity (first :: rest) = rtrimS first := by
  have hid : session_identity (first :: rest) = rtrimS first := by
    simp [session_identity, hname]
  refine ⟨?_, ?_, ?_, hid⟩
  · simp [session_events, hid, List.takeWhile_cons, isRecvEv, isSendToEv]
  · simp [session_events, hid, List.takeWhile_cons, isRecvEv, isSendToEv]
  · intro d t hmem
    rw [session_events] at hmem
    rcases List.mem_cons.mp hmem with h | hmem2
    · exact SEv.noConfusion h
    rcases List.mem_cons.mp hmem2 with h | hmem3
    · injection h with h1 h2
    rcases List.mem_cons.mp hmem3 with h | hmem4
    · exact SEv.noConfusion h
    rcases List.mem_cons.mp hmem4 with h | hmem5
    · exact SEv.noConfusion h
    exact absurd hmem5 (sendTo_not_in_loop _ _ d t)

/-- Witness for C3. -/
theorem bootstrap_single_receive_welcome_witness :
    rtrimS "alice\n" ≠ "" ∧
    ((session_events 4 ["alice\n", "hi"]).takeWhile
        (fun e => !(e == SEv.loopStart))).filter isRecvEv =
      [SEv.recvPayload "alice\n"] ∧
    ((session_events 4 ["alice\n", "hi"]).takeWhile
        (fun e => !(e == SEv.loopStart))).filter isSendToEv =
      [SEv.sendTo 4 (welcomeLine (rtrimS "alice\n"))] ∧
    session_identity ["alice\n", "hi"] = rtrimS "alice\n" := by
  have h := bootstrap_single_receive_welcome 4 "alice\n" ["hi"] (by decide)
  exact ⟨by decide, h.1, h.2.1, h.2.2.2⟩

end ChatApp
